import Mathlib

/-!
# usernet.StartUserNet: port-forward parsing and network configuration

A shallow embedding of `src/usernet/usernet.go`.

* Go strings are modelled by Lean `String`. The source only splits on and counts the one-byte
  ASCII separators `,` and `:`; splitting and counting at such a separator acts the same on the
  UTF-8 bytes as on the characters.
* `map[string]string` is modelled by an association list with pairwise distinct keys
  (`GoMap`), behind a `MapRef` that tells the nil map from a map made by `make`.
* An index expression that is out of range panics in Go; the parsing code returns `Option`
  and `none` stands for a panic.
* Everything the function does to the outside (printing, the swap of `os.Stdout`, engine
  creation, descriptor wrapping, task launch) is recorded as a list of `Event`s. A run-time
  panic after the first effects is the last event of the list: nothing follows it.
* `os.NewFile` gives the nil file for a negative descriptor, and `net.FileConn` on the nil
  file panics: it fails to duplicate the descriptor and then reads the name of the nil file
  to build the error.
-/

namespace strings

/-- Character-level worker of `Split` for a one-character separator: the pieces of the text
between occurrences of `sep`, from left to right. There is always at least one piece. -/
def splitChars (sep : Char) : List Char → List (List Char)
  | [] => [[]]
  | c :: cs =>
    if c = sep then [] :: splitChars sep cs
    else
      match splitChars sep cs with
      | [] => [[c]]
      | w :: ws => (c :: w) :: ws

/-- Go `strings.Split(s, sep)` for a separator `sep` of one character. -/
def Split (s : String) (sep : Char) : List String :=
  (splitChars sep s.data).map String.mk

/-- Go `strings.Count(s, sep)` for a separator `sep` of one character. -/
def Count (s : String) (sep : Char) : Nat :=
  s.data.count sep

end strings

namespace usernet

/-- A Go `map[string]string` that is not nil: key/value pairs, keys pairwise distinct. -/
abbrev GoMap := List (String × String)

/-- Map assignment `m[k] = v`: overwrite the value of an existing key, else add the pair. -/
def GoMap.set : GoMap → String → String → GoMap
  | [], k, v => [(k, v)]
  | (k', v') :: m, k, v =>
    if k' = k then (k, v) :: m else (k', v') :: GoMap.set m k v

/-- Map lookup `m[k]` with the presence flag. -/
def GoMap.get : GoMap → String → Option String
  | [], _ => none
  | (k', v') :: m, k => if k' = k then some v' else GoMap.get m k

/-- A value of type `map[string]string`: the nil map, or a map that exists. -/
inductive MapRef where
  | nil : MapRef
  | present (m : GoMap) : MapRef
  deriving DecidableEq, Repr

/-- Go `len(m)`, which is 0 for the nil map. -/
def MapRef.len : MapRef → Nat
  | .nil => 0
  | .present m => m.length

/-- Lookup in a possibly nil map; a nil map has no key. -/
def MapRef.get : MapRef → String → Option String
  | .nil, _ => none
  | .present m, k => GoMap.get m k

/-- State of the parsing loop: the map under construction and the texts handed to
`fmt.Printf` so far, oldest first. -/
structure ParseState where
  portFwdMap : GoMap
  printed : List String
  deriving DecidableEq, Repr

/-- Text of the `fmt.Printf` call of the last branch of the loop (no trailing newline). -/
def invalidEntryText (portForward : String) : String :=
  "err: invalid port forward entry: " ++ portForward

/-- One iteration of the `for ... range` loop of `StartUserNet` (lines 27-37). `none` is a
panic of an index expression. -/
def loopBody (st : ParseState) (portForward : String) : Option ParseState :=
  if strings.Count portForward ':' = 1 then do
    let f0 ← (strings.Split portForward ':')[0]?
    let hostFwd := "127.0.0.1:" ++ f0
    let f1 ← (strings.Split portForward ':')[1]?
    let guestFwd := "172.16.10.2:" ++ f1
    pure { st with portFwdMap := st.portFwdMap.set hostFwd guestFwd }
  else if strings.Count portForward ':' = 3 then do
    let f0 ← (strings.Split portForward ':')[0]?
    let f1 ← (strings.Split portForward ':')[1]?
    let hostFwd := f0 ++ ":" ++ f1
    let f2 ← (strings.Split portForward ':')[2]?
    let f3 ← (strings.Split portForward ':')[3]?
    let guestFwd := f2 ++ ":" ++ f3
    pure { st with portFwdMap := st.portFwdMap.set hostFwd guestFwd }
  else
    pure { st with printed := st.printed ++ [invalidEntryText portForward] }

/-- The `for ... range` loop over the entries, from a given state. -/
def loop : ParseState → List String → Option ParseState
  | st, [] => some st
  | st, e :: es => (loopBody st e).bind fun st' => loop st' es

/-- Lines 24-41 of `StartUserNet`: the value of `portFwdMap` after the `if`/`else`, and the
texts printed on the way. -/
def parsePortForwards (portForwards : String) : Option (MapRef × List String) :=
  if portForwards ≠ "" then
    (loop { portFwdMap := [], printed := [] } (strings.Split portForwards ',')).map
      fun st => (MapRef.present st.portFwdMap, st.printed)
  else
    some (MapRef.nil, [])

/-- The rule an entry stands for, read off the two accepting branches of the loop body with
the fields taken by `getD`; `none` for an entry that neither branch accepts. -/
def entryRule (portForward : String) : Option (String × String) :=
  let fields := strings.Split portForward ':'
  if strings.Count portForward ':' = 1 then
    some ("127.0.0.1:" ++ fields.getD 0 "", "172.16.10.2:" ++ fields.getD 1 "")
  else if strings.Count portForward ':' = 3 then
    some (fields.getD 0 "" ++ ":" ++ fields.getD 1 "", fields.getD 2 "" ++ ":" ++ fields.getD 3 "")
  else
    none

/-- An entry is valid when its number of `:` is exactly 1 or exactly 3. -/
def validEntry (portForward : String) : Bool :=
  strings.Count portForward ':' = 1 || strings.Count portForward ':' = 3

/-- Map assignment of one rule, `m[r.1] = r.2`. -/
def applyRule (m : GoMap) (r : String × String) : GoMap :=
  m.set r.1 r.2

/-- The forward table of a spec: the value of `portFwdMap` that goes into the configuration. -/
def forwardTable (portForwards : String) : Option MapRef :=
  (parsePortForwards portForwards).map Prod.fst

/-- The malformed-entry reports of a spec, in the order they are printed. -/
def reports (portForwards : String) : Option (List String) :=
  (parsePortForwards portForwards).map Prod.snd

/-- `types.Protocol` of gvisor-tap-vsock: the wire protocols the engine knows. -/
inductive Protocol where
  | HyperKitProtocol | QemuProtocol | BessProtocol | StdioProtocol | VfkitProtocol
  deriving DecidableEq, Repr

/-- `types.Zone` of gvisor-tap-vsock, reduced to its name: the source only builds the empty
list of zones. -/
structure Zone where
  Name : String
  deriving DecidableEq, Repr

/-- The fields of `types.Configuration` that `StartUserNet` sets. A slice is `none` when nil
and `some xs` when it exists. -/
structure Configuration where
  Debug : Bool
  MTU : Int
  Subnet : String
  GatewayIP : String
  GatewayMacAddress : String
  DHCPStaticLeases : MapRef
  Forwards : MapRef
  DNS : Option (List Zone)
  DNSSearchDomains : Option (List String)
  NAT : MapRef
  GatewayVirtualIPs : Option (List String)
  Protocol : Protocol
  deriving DecidableEq, Repr

/-- The composite literal of lines 44-59, for a given value of `portFwdMap`. -/
def mkConfig (portFwdMap : MapRef) : Configuration :=
  { Debug := false
    MTU := 1500
    Subnet := "172.16.10.0/24"
    GatewayIP := "172.16.10.1"
    GatewayMacAddress := "5a:94:ef:e4:0c:dd"
    DHCPStaticLeases := MapRef.nil
    Forwards := portFwdMap
    DNS := some []
    DNSSearchDomains := none
    NAT := MapRef.present [("172.16.10.254", "127.0.0.1")]
    GatewayVirtualIPs := some ["172.16.10.254"]
    Protocol := Protocol.BessProtocol }

/-- What the variable `os.Stdout` refers to: the standard output the process was started
with, the open null device, or the nil file left by a failed `os.Open`. -/
inductive Sink where
  | console | devNull | nilFile
  deriving DecidableEq, Repr

/-- The surroundings of one call of `StartUserNet`: what `os.Stdout` refers to on entry, and
the answers of the calls into the operating system and the engine library. An error is its
message; `none` is a nil error. -/
structure Env where
  stdout : Sink
  openDevNull : Bool
  virtualnetworkNew : Configuration → Option String
  fileConn : Int → Option String
  quote : String → String

/-- The effects of `StartUserNet`, in program order. `printf sink text` is a call of
`fmt.Printf` producing `text` while `os.Stdout` refers to `sink`. `panic` is a run-time
panic of the calling goroutine: the function stops there. -/
inductive Event where
  | printf (sink : Sink) (text : String)
  | setStdout (f : Sink)
  | setStderr (f : Sink)
  | logrusSetOutputDiscard
  | logSetOutputDiscard
  | virtualnetworkNew (config : Configuration)
  | fileConn (sockFD : Int)
  | goAcceptBess (vnOk connOk : Bool)
  | goWait
  | panic
  deriving DecidableEq, Repr

/-- Text of `fmt.Printf("err: %q\n", err)`. -/
def errText (env : Env) (err : String) : String :=
  "err: " ++ env.quote err ++ "\n"

/-- The report of an error value right after a call: nothing for a nil error. -/
def reportErr (env : Env) (stdout : Sink) : Option String → List Event
  | none => []
  | some err => [Event.printf stdout (errText env err)]

/-- `os.NewFile(uintptr(sockFD), "server")` of line 78: the nil file, `none`, for a negative
descriptor, else a file on that descriptor. -/
def NewFile (sockFD : Int) : Option Int :=
  if sockFD < 0 then none else some sockFD

/-- How the call `net.FileConn(file)` of line 79 ends: with a panic, or by returning an error
value that may be nil. -/
inductive ConnResult where
  | panic
  | returned (err : Option String)
  deriving DecidableEq, Repr

/-- `net.FileConn(file)`: on the nil file it panics, on a file the surroundings answer. -/
def FileConn (env : Env) : Option Int → ConnResult
  | none => ConnResult.panic
  | some fd => ConnResult.returned (env.fileConn fd)

/-- Lines 77-95 of `StartUserNet`: wrap the descriptor, report an error of that, launch the
task that calls `AcceptBess` and the task that waits for it. `null` is what `os.Stdout`
refers to by then and `errNew` the error of engine creation. -/
def attach (env : Env) (null : Sink) (errNew : Option String) (sockFD : Int) : List Event :=
  match FileConn env (NewFile sockFD) with
  | ConnResult.panic => [Event.fileConn sockFD, Event.panic]
  | ConnResult.returned errConn =>
    [Event.fileConn sockFD] ++ reportErr env null errConn
      ++ [Event.goAcceptBess errNew.isNone errConn.isNone, Event.goWait]

/-- The whole of `StartUserNet` as the list of its effects; `none` is a panic while parsing.
The two `go` launches are recorded, the bodies of the tasks are not run. -/
def StartUserNet (env : Env) (sockFD : Int) (portForwards : String) : Option (List Event) := do
  let (portFwdMap, printed) ← parsePortForwards portForwards
  let config := mkConfig portFwdMap
  let null := if env.openDevNull then Sink.devNull else Sink.nilFile
  let errNew := env.virtualnetworkNew config
  pure <|
    printed.map (Event.printf env.stdout)
    ++ [Event.setStdout null, Event.setStderr null,
        Event.logrusSetOutputDiscard, Event.logSetOutputDiscard]
    ++ [Event.virtualnetworkNew config] ++ reportErr env null errNew
    ++ attach env null errNew sockFD

/-- The texts that reach the standard output the process was started with. -/
def consoleOutput : List Event → List String
  | [] => []
  | Event.printf Sink.console text :: evs => text :: consoleOutput evs
  | _ :: evs => consoleOutput evs

/-- The configurations handed to `virtualnetwork.New`. -/
def configsCreated : List Event → List Configuration
  | [] => []
  | Event.virtualnetworkNew config :: evs => config :: configsCreated evs
  | _ :: evs => configsCreated evs

/-- A well-formed `host:port` pair in the words of the data model: exactly one `:`, and a
non-empty part on each side of it. -/
def wellFormedHostPort (a : String) : Bool :=
  decide (strings.Count a ':' = 1) && (strings.Split a ':').all fun part => decide (part ≠ "")

/-- The double quote character as a text. -/
def dq : String := String.singleton (Char.ofNat 34)

/-- A call whose descriptor is not an open socket: the process still has its standard
output, the null device opens, `virtualnetwork.New` succeeds, `net.FileConn` returns an
error (the message stands for the one of the library), and `%q` puts the message between
double quotes. -/
def closedDescriptorEnv : Env :=
  { stdout := Sink.console
    openDevNull := true
    virtualnetworkNew := fun _ => none
    fileConn := fun _ => some "file file+net server: bad file descriptor"
    quote := fun msg => dq ++ msg ++ dq }

/-- Whether the task that calls `AcceptBess` is launched. -/
def launchesBridge (evs : List Event) : Bool :=
  evs.any fun ev =>
    match ev with
    | Event.goAcceptBess _ _ => true
    | _ => false

/-- Whether an effect is a call of `fmt.Printf`. -/
def Event.isPrintf : Event → Bool
  | Event.printf _ _ => true
  | _ => false

/-- The effects other than printing, in program order. -/
def steps (evs : List Event) : List Event :=
  evs.filter fun ev => !ev.isPrintf

/-- The texts printed before `os.Stdout` is first assigned, whatever it refers to then:
what the parsing loop printed. -/
def textsBeforeSwap : List Event → List String
  | Event.printf _ text :: evs => text :: textsBeforeSwap evs
  | _ => []

/-- Map override: the value of `k` in `m2` if `m2` has the key, else its value in `m1`. -/
def overrideGet (m1 m2 : GoMap) (k : String) : Option String :=
  match m2.get k with
  | some v => some v
  | none => m1.get k

end usernet

/-! ## Splitting and counting -/

namespace strings

theorem splitChars_ne_nil (sep : Char) (s : List Char) : splitChars sep s ≠ [] := by
  induction s with
  | nil => simp [splitChars]
  | cons c cs ih =>
    unfold splitChars
    split
    · simp
    · split <;> simp

theorem splitChars_cons_ne {sep c : Char} (cs : List Char) (h : c ≠ sep) :
    ∃ w ws, splitChars sep cs = w :: ws ∧ splitChars sep (c :: cs) = (c :: w) :: ws := by
  cases hs : splitChars sep cs with
  | nil => exact absurd hs (splitChars_ne_nil sep cs)
  | cons w ws => exact ⟨w, ws, rfl, by simp [splitChars, h, hs]⟩

theorem splitChars_of_not_mem {sep : Char} {s : List Char} (h : sep ∉ s) :
    splitChars sep s = [s] := by
  induction s with
  | nil => rfl
  | cons c cs ih =>
    have hc : c ≠ sep := fun e => h (by simp [e])
    have hcs : sep ∉ cs := fun e => h (by simp [e])
    simp [splitChars, hc, ih hcs]

theorem splitChars_append_sep {sep : Char} {a : List Char} (b : List Char) (h : sep ∉ a) :
    splitChars sep (a ++ sep :: b) = a :: splitChars sep b := by
  induction a with
  | nil => simp [splitChars]
  | cons c cs ih =>
    have hc : c ≠ sep := fun e => h (by simp [e])
    have hcs : sep ∉ cs := fun e => h (by simp [e])
    simp [splitChars, hc, ih hcs]

theorem length_splitChars (sep : Char) (s : List Char) :
    (splitChars sep s).length = s.count sep + 1 := by
  induction s with
  | nil => rfl
  | cons c cs ih =>
    by_cases hc : c = sep
    · simp [splitChars, hc, ih]
    · obtain ⟨w, ws, h1, h2⟩ := splitChars_cons_ne cs hc
      rw [h2, List.count_cons_of_ne (Ne.symm hc), ← ih, h1]
      rfl

theorem not_mem_of_mem_splitChars {sep : Char} {s w : List Char}
    (hw : w ∈ splitChars sep s) : sep ∉ w := by
  induction s generalizing w with
  | nil =>
    simp [splitChars] at hw
    simp [hw]
  | cons c cs ih =>
    by_cases hc : c = sep
    · simp only [splitChars, hc, if_true, List.mem_cons] at hw
      rcases hw with rfl | hw
      · simp
      · exact ih hw
    · obtain ⟨v, vs, h1, h2⟩ := splitChars_cons_ne cs hc
      rw [h2] at hw
      rcases List.mem_cons.1 hw with rfl | hw
      · have hv : sep ∉ v := ih (by rw [h1]; exact List.mem_cons_self _ _)
        intro hm
        rcases List.mem_cons.1 hm with e | e
        · exact hc e.symm
        · exact hv e
      · exact ih (by rw [h1]; exact List.mem_cons_of_mem _ hw)

theorem length_Split (s : String) (sep : Char) : (Split s sep).length = Count s sep + 1 := by
  simp [Split, Count, length_splitChars]

theorem Count_append (a b : String) (sep : Char) :
    Count (a ++ b) sep = Count a sep + Count b sep := by
  simp [Count, String.data_append]

theorem Count_eq_zero {s : String} {sep : Char} (h : sep ∉ s.data) : Count s sep = 0 := by
  simpa [Count] using List.count_eq_zero_of_not_mem h

theorem Split_of_not_mem {s : String} {sep : Char} (h : sep ∉ s.data) : Split s sep = [s] := by
  simp [Split, splitChars_of_not_mem h]

theorem Split_append_sep {a : String} (b : String) {sep : Char} (h : sep ∉ a.data) :
    Split (a ++ String.mk [sep] ++ b) sep = a :: Split b sep := by
  simp [Split, String.data_append, splitChars_append_sep _ h]

theorem not_mem_of_mem_Split {s w : String} {sep : Char} (hw : w ∈ Split s sep) :
    sep ∉ w.data := by
  obtain ⟨cs, hcs, rfl⟩ := List.mem_map.1 hw
  exact not_mem_of_mem_splitChars hcs

theorem Count_of_mem_Split {s w : String} {sep : Char} (hw : w ∈ Split s sep) :
    Count w sep = 0 := by
  obtain ⟨cs, hcs, rfl⟩ := List.mem_map.1 hw
  exact Count_eq_zero (not_mem_of_mem_splitChars hcs)

end strings

/-! ## Map assignment -/

namespace usernet

theorem GoMap.get_set_self (m : GoMap) (k v : String) : (m.set k v).get k = some v := by
  induction m with
  | nil => simp [GoMap.set, GoMap.get]
  | cons p m ih =>
    obtain ⟨k', v'⟩ := p
    by_cases hk : k' = k <;> simp [GoMap.set, GoMap.get, hk, ih]

theorem GoMap.get_set_ne (m : GoMap) {k h : String} (v : String) (hne : k ≠ h) :
    (m.set k v).get h = m.get h := by
  induction m with
  | nil => simp [GoMap.set, GoMap.get, hne]
  | cons p m ih =>
    obtain ⟨k', v'⟩ := p
    by_cases hk : k' = k
    · subst hk
      simp [GoMap.set, GoMap.get, hne]
    · by_cases hh : k' = h
      · subst hh
        simp [GoMap.set, GoMap.get, hk]
      · simp [GoMap.set, GoMap.get, hk, hh, ih]

theorem GoMap.set_of_not_mem (m : GoMap) {k : String} (v : String)
    (hk : k ∉ m.map Prod.fst) : m.set k v = m ++ [(k, v)] := by
  induction m with
  | nil => rfl
  | cons p m ih =>
    obtain ⟨k', v'⟩ := p
    have h1 : k' ≠ k := fun e => hk (by simp [e])
    have h2 : k ∉ m.map Prod.fst := fun e => hk (List.mem_cons_of_mem _ e)
    simp [GoMap.set, h1, ih h2]

theorem GoMap.keys_set_of_mem (m : GoMap) {k : String} (v : String)
    (hk : k ∈ m.map Prod.fst) : (m.set k v).map Prod.fst = m.map Prod.fst := by
  induction m with
  | nil => simp at hk
  | cons p m ih =>
    obtain ⟨k', v'⟩ := p
    by_cases h1 : k' = k
    · simp [GoMap.set, h1]
    · have h2 : k ∈ m.map Prod.fst := by
        rcases List.mem_cons.1 hk with e | e
        · exact absurd e.symm h1
        · exact e
      simp [GoMap.set, h1, ih h2]

theorem GoMap.nodup_keys_set (m : GoMap) (k v : String) (hm : (m.map Prod.fst).Nodup) :
    ((m.set k v).map Prod.fst).Nodup := by
  by_cases hk : k ∈ m.map Prod.fst
  · rw [GoMap.keys_set_of_mem m v hk]
    exact hm
  · rw [GoMap.set_of_not_mem m v hk, List.map_append]
    refine List.Nodup.append hm (by simp) ?_
    intro x hx hx'
    simp at hx'
    exact hk (hx' ▸ hx)

theorem GoMap.mem_set {m : GoMap} {k v : String} {r : String × String}
    (hr : r ∈ m.set k v) : r ∈ m ∨ r = (k, v) := by
  induction m with
  | nil => simpa [GoMap.set] using hr
  | cons p m ih =>
    obtain ⟨k', v'⟩ := p
    by_cases h1 : k' = k
    · simp only [GoMap.set, h1, if_true, List.mem_cons] at hr
      rcases hr with e | e
      · exact Or.inr e
      · exact Or.inl (List.mem_cons_of_mem _ e)
    · simp only [GoMap.set, h1, if_false, List.mem_cons] at hr
      rcases hr with e | e
      · exact Or.inl (e ▸ List.mem_cons_self _ _)
      · rcases ih e with e' | e'
        · exact Or.inl (List.mem_cons_of_mem _ e')
        · exact Or.inr e'

theorem GoMap.mem_keys_of_get {m : GoMap} {h g : String} (hg : m.get h = some g) :
    h ∈ m.map Prod.fst := by
  induction m with
  | nil => simp [GoMap.get] at hg
  | cons p m ih =>
    obtain ⟨k', v'⟩ := p
    by_cases h1 : k' = h
    · simp [h1]
    · simp only [GoMap.get, h1, if_false] at hg
      exact List.mem_cons_of_mem _ (ih hg)

theorem GoMap.get_of_mem {m : GoMap} {h g : String} (hm : (m.map Prod.fst).Nodup)
    (hg : (h, g) ∈ m) : m.get h = some g := by
  induction m with
  | nil => simp at hg
  | cons p m ih =>
    obtain ⟨k', v'⟩ := p
    rw [List.map_cons, List.nodup_cons] at hm
    rcases List.mem_cons.1 hg with e | e
    · cases e
      simp [GoMap.get]
    · have h1 : k' ≠ h := by
        rintro rfl
        exact hm.1 (List.mem_map.2 ⟨(k', g), e, rfl⟩)
      simp [GoMap.get, h1, ih hm.2 e]

theorem nodup_keys_foldl (rs : List (String × String)) (m : GoMap)
    (hm : (m.map Prod.fst).Nodup) : ((rs.foldl applyRule m).map Prod.fst).Nodup := by
  induction rs generalizing m with
  | nil => exact hm
  | cons r rs ih => exact ih _ (GoMap.nodup_keys_set m r.1 r.2 hm)

theorem get_foldl_of_not_mem (rs : List (String × String)) (m : GoMap) {h : String}
    (hrs : ∀ r ∈ rs, r.1 ≠ h) : (rs.foldl applyRule m).get h = m.get h := by
  induction rs generalizing m with
  | nil => rfl
  | cons r rs ih =>
    rw [List.foldl_cons, ih _ (fun r' hr' => hrs r' (List.mem_cons_of_mem _ hr'))]
    exact GoMap.get_set_ne m r.2 (hrs r (List.mem_cons_self _ _))

theorem mem_foldl {rs : List (String × String)} {m : GoMap} {r : String × String}
    (hr : r ∈ rs.foldl applyRule m) : r ∈ m ∨ r ∈ rs := by
  induction rs generalizing m with
  | nil => exact Or.inl hr
  | cons r' rs ih =>
    rcases ih hr with e | e
    · rcases GoMap.mem_set e with e' | e'
      · exact Or.inl e'
      · exact Or.inr (e' ▸ List.mem_cons_self _ _)
    · exact Or.inr (List.mem_cons_of_mem _ e)

theorem foldl_of_nodup (rs : List (String × String)) (m : GoMap)
    (h : ((m ++ rs).map Prod.fst).Nodup) : rs.foldl applyRule m = m ++ rs := by
  induction rs generalizing m with
  | nil => simp
  | cons r rs ih =>
    have hr : r.1 ∉ m.map Prod.fst := by
      intro hmem
      rw [List.map_append, List.map_cons] at h
      exact (List.nodup_append.1 h).2.2 hmem (List.mem_cons_self _ _)
    rw [List.foldl_cons, applyRule, GoMap.set_of_not_mem m r.2 hr]
    have h' : (((m ++ [(r.1, r.2)]) ++ rs).map Prod.fst).Nodup := by
      simpa using h
    rw [ih _ h']
    simp

end usernet

/-! ## The parsing loop -/

namespace usernet

theorem entryRule_eq_none_iff (e : String) : entryRule e = none ↔ validEntry e = false := by
  unfold entryRule validEntry
  by_cases h1 : strings.Count e ':' = 1
  · simp [h1]
  · by_cases h3 : strings.Count e ':' = 3 <;> simp [h1, h3]

theorem loopBody_of_rule (st : ParseState) {e : String} {r : String × String}
    (hr : entryRule e = some r) :
    loopBody st e = some { st with portFwdMap := applyRule st.portFwdMap r } := by
  have hlen := strings.length_Split e ':'
  unfold entryRule at hr
  unfold loopBody
  by_cases h1 : strings.Count e ':' = 1
  · rw [h1] at hlen
    rcases hS : strings.Split e ':' with _ | ⟨a, _ | ⟨b, _ | ⟨c, t⟩⟩⟩ <;>
      rw [hS] at hlen <;> simp at hlen
    simp only [h1, if_true, hS] at hr ⊢
    cases hr
    rfl
  · by_cases h3 : strings.Count e ':' = 3
    · rw [h3] at hlen
      rcases hS : strings.Split e ':' with
        _ | ⟨a, _ | ⟨b, _ | ⟨c, _ | ⟨d, _ | ⟨x, t⟩⟩⟩⟩⟩ <;>
        rw [hS] at hlen <;> simp at hlen
      simp only [h1, h3, if_true, if_false, hS] at hr ⊢
      cases hr
      rfl
    · simp [h1, h3] at hr

theorem loopBody_of_invalid (st : ParseState) {e : String} (he : validEntry e = false) :
    loopBody st e = some { st with printed := st.printed ++ [invalidEntryText e] } := by
  unfold validEntry at he
  simp only [Bool.or_eq_false_iff, decide_eq_false_iff_not] at he
  simp [loopBody, he.1, he.2]

theorem loop_eq (es : List String) (st : ParseState) :
    loop st es = some
      { portFwdMap := (es.filterMap entryRule).foldl applyRule st.portFwdMap
        printed := st.printed ++
          (es.filter fun e => !validEntry e).map invalidEntryText } := by
  induction es generalizing st with
  | nil => simp [loop]
  | cons e es ih =>
    cases hr : entryRule e with
    | none =>
      have hv : validEntry e = false := (entryRule_eq_none_iff e).1 hr
      simp [loop, loopBody_of_invalid st hv, ih, hr, hv]
    | some r =>
      have hv : validEntry e = true := by
        cases h : validEntry e
        · rw [(entryRule_eq_none_iff e).2 h] at hr
          cases hr
        · rfl
      simp [loop, loopBody_of_rule st hr, ih, hr, hv]

theorem parsePortForwards_eq (spec : String) :
    parsePortForwards spec = some
      (if spec ≠ "" then
        (MapRef.present (((strings.Split spec ',').filterMap entryRule).foldl applyRule []),
          ((strings.Split spec ',').filter fun e => !validEntry e).map invalidEntryText)
      else (MapRef.nil, [])) := by
  unfold parsePortForwards
  by_cases h : spec = ""
  · simp [h]
  · simp [h, loop_eq]

theorem StartUserNet_eq (env : Env) (sockFD : Int) {spec : String} {t : MapRef}
    {rs : List String} (hp : parsePortForwards spec = some (t, rs)) :
    StartUserNet env sockFD spec = some
      (rs.map (Event.printf env.stdout)
        ++ Event.setStdout (if env.openDevNull then Sink.devNull else Sink.nilFile)
        :: ([Event.setStderr (if env.openDevNull then Sink.devNull else Sink.nilFile),
              Event.logrusSetOutputDiscard, Event.logSetOutputDiscard,
              Event.virtualnetworkNew (mkConfig t)]
            ++ reportErr env (if env.openDevNull then Sink.devNull else Sink.nilFile)
                (env.virtualnetworkNew (mkConfig t))
            ++ attach env (if env.openDevNull then Sink.devNull else Sink.nilFile)
                (env.virtualnetworkNew (mkConfig t)) sockFD)) := by
  unfold StartUserNet
  rw [hp]
  simp

theorem attach_of_neg (env : Env) (null : Sink) (errNew : Option String) {sockFD : Int}
    (h : sockFD < 0) : attach env null errNew sockFD = [Event.fileConn sockFD, Event.panic] := by
  simp [attach, NewFile, FileConn, h]

theorem attach_of_nonneg (env : Env) (null : Sink) (errNew : Option String) {sockFD : Int}
    (h : ¬ sockFD < 0) :
    attach env null errNew sockFD
      = [Event.fileConn sockFD] ++ reportErr env null (env.fileConn sockFD)
          ++ [Event.goAcceptBess errNew.isNone (env.fileConn sockFD).isNone, Event.goWait] := by
  simp [attach, NewFile, FileConn, h]

theorem configsCreated_append (l1 l2 : List Event) :
    configsCreated (l1 ++ l2) = configsCreated l1 ++ configsCreated l2 := by
  induction l1 with
  | nil => rfl
  | cons x xs ih => cases x <;> simp [configsCreated, ih]

theorem configsCreated_printed (sink : Sink) (l : List String) :
    configsCreated (l.map (Event.printf sink)) = [] := by
  induction l with
  | nil => rfl
  | cons x xs ih => simpa [configsCreated] using ih

theorem configsCreated_reportErr (env : Env) (sink : Sink) (err : Option String) :
    configsCreated (reportErr env sink err) = [] := by
  cases err <;> rfl

theorem configsCreated_attach (env : Env) (null : Sink) (errNew : Option String)
    (sockFD : Int) : configsCreated (attach env null errNew sockFD) = [] := by
  by_cases h : sockFD < 0
  · rw [attach_of_neg env null errNew h]
    rfl
  · rw [attach_of_nonneg env null errNew h, configsCreated_append, configsCreated_append,
      configsCreated_reportErr]
    rfl

theorem StartUserNet_configsCreated (env : Env) (sockFD : Int) (spec : String) :
    (StartUserNet env sockFD spec).map configsCreated =
      (forwardTable spec).map fun t => [mkConfig t] := by
  obtain ⟨⟨t, rs⟩, hq⟩ : ∃ q, parsePortForwards spec = some q :=
    ⟨_, parsePortForwards_eq spec⟩
  rw [StartUserNet_eq env sockFD hq, forwardTable, hq, Option.map_some', Option.map_some',
    configsCreated_append, configsCreated_printed, List.nil_append]
  simp [configsCreated, configsCreated_append, configsCreated_reportErr,
    configsCreated_attach]

theorem entryRule_two_field {h g : String} (hh : ':' ∉ h.data) (hg : ':' ∉ g.data) :
    entryRule (h ++ ":" ++ g) = some ("127.0.0.1:" ++ h, "172.16.10.2:" ++ g) := by
  have hc : strings.Count (h ++ ":" ++ g) ':' = 1 := by
    rw [strings.Count_append, strings.Count_append, strings.Count_eq_zero hh,
      strings.Count_eq_zero hg]
    rfl
  have hs : strings.Split (h ++ ":" ++ g) ':' = [h, g] := by
    rw [show (":" : String) = String.mk [':'] from rfl, strings.Split_append_sep g hh,
      strings.Split_of_not_mem hg]
  simp [entryRule, hc, hs]

theorem entryRule_four_field {a b c d : String} (ha : ':' ∉ a.data) (hb : ':' ∉ b.data)
    (hc : ':' ∉ c.data) (hd : ':' ∉ d.data) :
    entryRule (a ++ ":" ++ b ++ ":" ++ c ++ ":" ++ d) = some (a ++ ":" ++ b, c ++ ":" ++ d) := by
  have e : a ++ ":" ++ b ++ ":" ++ c ++ ":" ++ d
      = a ++ String.mk [':'] ++ (b ++ String.mk [':'] ++ (c ++ String.mk [':'] ++ d)) := by
    simp [String.append_assoc]
  have hcount : strings.Count (a ++ ":" ++ b ++ ":" ++ c ++ ":" ++ d) ':' = 3 := by
    simp only [strings.Count_append, strings.Count_eq_zero ha, strings.Count_eq_zero hb,
      strings.Count_eq_zero hc, strings.Count_eq_zero hd]
    rfl
  have hs : strings.Split (a ++ ":" ++ b ++ ":" ++ c ++ ":" ++ d) ':' = [a, b, c, d] := by
    rw [e, strings.Split_append_sep _ ha, strings.Split_append_sep _ hb,
      strings.Split_append_sep _ hc, strings.Split_of_not_mem hd]
  simp [entryRule, hcount, hs]

end usernet

/-! ## Single entries and the empty spec -/

namespace usernet

theorem parsePortForwards_single {e : String} {r : String × String}
    (hne : e ≠ "") (hcomma : ',' ∉ e.data) (hr : entryRule e = some r) :
    parsePortForwards e = some (MapRef.present [r], []) := by
  have hv : validEntry e = true := by
    cases h : validEntry e
    · rw [(entryRule_eq_none_iff e).2 h] at hr
      cases hr
    · rfl
  rw [parsePortForwards_eq, if_pos hne, strings.Split_of_not_mem hcomma]
  simp [hr, hv, applyRule, GoMap.set]

theorem forwards_of_table {spec : String} {t : MapRef} {printed : List String}
    (h : parsePortForwards spec = some (t, printed)) (env : Env) (sockFD : Int) :
    (StartUserNet env sockFD spec).map configsCreated = some [mkConfig t] := by
  rw [StartUserNet_configsCreated, forwardTable, h]
  rfl

/-- C1: for `h` and `g` free of `,` and `:`, the spec `h:g` parses without panic and without
report to the present table whose single rule maps `127.0.0.1:h` to `172.16.10.2:g`; the
table has length 1, looks the host address up to the guest address, and is the `Forwards`
field of the one configuration handed to engine creation. -/
theorem two_field_expansion (h g : String)
    (hh1 : ',' ∉ h.data) (hh2 : ':' ∉ h.data) (hg1 : ',' ∉ g.data) (hg2 : ':' ∉ g.data) :
    parsePortForwards (h ++ ":" ++ g)
        = some (MapRef.present [("127.0.0.1:" ++ h, "172.16.10.2:" ++ g)], [])
      ∧ (MapRef.present [("127.0.0.1:" ++ h, "172.16.10.2:" ++ g)]).len = 1
      ∧ (MapRef.present [("127.0.0.1:" ++ h, "172.16.10.2:" ++ g)]).get ("127.0.0.1:" ++ h)
          = some ("172.16.10.2:" ++ g)
      ∧ ∀ (env : Env) (sockFD : Int),
          (StartUserNet env sockFD (h ++ ":" ++ g)).map
              (fun evs => (configsCreated evs).map Configuration.Forwards)
            = some [MapRef.present [("127.0.0.1:" ++ h, "172.16.10.2:" ++ g)]] := by
  have hne : h ++ ":" ++ g ≠ "" := by
    intro e
    have := congrArg String.length e
    simp at this
    exact absurd this.1.2 (by decide)
  have hcomma : ',' ∉ (h ++ ":" ++ g).data := by
    simp only [String.data_append, List.mem_append, not_or]
    exact ⟨⟨hh1, by decide⟩, hg1⟩
  have hp := parsePortForwards_single hne hcomma (entryRule_two_field hh2 hg2)
  refine ⟨hp, rfl, by simp [MapRef.get, GoMap.get], fun env sockFD => ?_⟩
  have := forwards_of_table hp env sockFD
  rw [Option.map_eq_some'] at this ⊢
  obtain ⟨evs, h1, h2⟩ := this
  exact ⟨evs, h1, by rw [h2]; rfl⟩

theorem two_field_expansion_witness :
    (',' ∉ "8080".data ∧ ':' ∉ "8080".data ∧ ',' ∉ "80".data ∧ ':' ∉ "80".data)
      ∧ parsePortForwards ("8080" ++ ":" ++ "80")
        = some (MapRef.present [("127.0.0.1:" ++ "8080", "172.16.10.2:" ++ "80")], []) :=
  ⟨by decide,
    (two_field_expansion "8080" "80" (by decide) (by decide) (by decide) (by decide)).1⟩

/-- C2: for `a`, `b`, `c`, `d` free of `,` and `:`, the spec `a:b:c:d` parses without panic
and without report to the present table whose single rule maps `a:b` to `c:d`, the four
fields verbatim; the table has length 1 and is the `Forwards` field of the one
configuration handed to engine creation. -/
theorem four_field_expansion (a b c d : String)
    (ha1 : ',' ∉ a.data) (ha2 : ':' ∉ a.data) (hb1 : ',' ∉ b.data) (hb2 : ':' ∉ b.data)
    (hc1 : ',' ∉ c.data) (hc2 : ':' ∉ c.data) (hd1 : ',' ∉ d.data) (hd2 : ':' ∉ d.data) :
    parsePortForwards (a ++ ":" ++ b ++ ":" ++ c ++ ":" ++ d)
        = some (MapRef.present [(a ++ ":" ++ b, c ++ ":" ++ d)], [])
      ∧ (MapRef.present [(a ++ ":" ++ b, c ++ ":" ++ d)]).len = 1
      ∧ (MapRef.present [(a ++ ":" ++ b, c ++ ":" ++ d)]).get (a ++ ":" ++ b)
          = some (c ++ ":" ++ d)
      ∧ ∀ (env : Env) (sockFD : Int),
          (StartUserNet env sockFD (a ++ ":" ++ b ++ ":" ++ c ++ ":" ++ d)).map
              (fun evs => (configsCreated evs).map Configuration.Forwards)
            = some [MapRef.present [(a ++ ":" ++ b, c ++ ":" ++ d)]] := by
  have hne : a ++ ":" ++ b ++ ":" ++ c ++ ":" ++ d ≠ "" := by
    intro e
    have := congrArg String.length e
    simp at this
    exact absurd this.1.2 (by decide)
  have hcomma : ',' ∉ (a ++ ":" ++ b ++ ":" ++ c ++ ":" ++ d).data := by
    simp only [String.data_append, List.mem_append, not_or]
    exact ⟨⟨⟨⟨⟨⟨ha1, by decide⟩, hb1⟩, by decide⟩, hc1⟩, by decide⟩, hd1⟩
  have hp := parsePortForwards_single hne hcomma (entryRule_four_field ha2 hb2 hc2 hd2)
  refine ⟨hp, rfl, by simp [MapRef.get, GoMap.get], fun env sockFD => ?_⟩
  have := forwards_of_table hp env sockFD
  rw [Option.map_eq_some'] at this ⊢
  obtain ⟨evs, h1, h2⟩ := this
  exact ⟨evs, h1, by rw [h2]; rfl⟩

theorem four_field_expansion_witness :
    (',' ∉ "0.0.0.0".data ∧ ':' ∉ "0.0.0.0".data ∧ ',' ∉ "8080".data ∧ ':' ∉ "8080".data
        ∧ ',' ∉ "172.16.10.5".data ∧ ':' ∉ "172.16.10.5".data
        ∧ ',' ∉ "80".data ∧ ':' ∉ "80".data)
      ∧ parsePortForwards ("0.0.0.0" ++ ":" ++ "8080" ++ ":" ++ "172.16.10.5" ++ ":" ++ "80")
        = some (MapRef.present [("0.0.0.0" ++ ":" ++ "8080", "172.16.10.5" ++ ":" ++ "80")],
            []) :=
  ⟨by decide,
    (four_field_expansion "0.0.0.0" "8080" "172.16.10.5" "80" (by decide) (by decide)
      (by decide) (by decide) (by decide) (by decide) (by decide) (by decide)).1⟩

/-- C3: the empty spec parses to the nil map with no report; the nil map is not the empty
map that exists; and the nil map is the `Forwards` field of the one configuration handed to
engine creation. -/
theorem empty_spec_nil_table :
    parsePortForwards "" = some (MapRef.nil, [])
      ∧ forwardTable "" = some MapRef.nil
      ∧ forwardTable "" ≠ some (MapRef.present [])
      ∧ ∀ (env : Env) (sockFD : Int),
          (StartUserNet env sockFD "").map
              (fun evs => (configsCreated evs).map Configuration.Forwards)
            = some [MapRef.nil] := by
  have hp : parsePortForwards "" = some (MapRef.nil, []) := by decide
  refine ⟨hp, by decide, by decide, fun env sockFD => ?_⟩
  have := forwards_of_table hp env sockFD
  rw [Option.map_eq_some'] at this ⊢
  obtain ⟨evs, h1, h2⟩ := this
  exact ⟨evs, h1, by rw [h2]; rfl⟩

end usernet

/-! ## Several entries -/

namespace usernet

theorem filterMap_entryRule_filter (es : List String) :
    (es.filter validEntry).filterMap entryRule = es.filterMap entryRule := by
  induction es with
  | nil => rfl
  | cons e es ih =>
    cases hv : validEntry e
    · simp [List.filter_cons, hv, (entryRule_eq_none_iff e).2 hv, ih]
    · simp [List.filter_cons, hv, List.filterMap_cons, ih]

theorem forwardTable_eq {spec : String} (hne : spec ≠ "") :
    forwardTable spec = some (MapRef.present
      (((strings.Split spec ',').filterMap entryRule).foldl applyRule [])) := by
  rw [forwardTable, parsePortForwards_eq, if_pos hne]
  rfl

theorem filterMap_entryRule_of_valid {es : List String}
    (hvalid : ∀ e ∈ es, validEntry e = true) :
    es.map entryRule = (es.filterMap entryRule).map some := by
  induction es with
  | nil => rfl
  | cons e es ih =>
    have hv := hvalid e (List.mem_cons_self _ _)
    cases hr : entryRule e with
    | none =>
      rw [(entryRule_eq_none_iff e).1 hr] at hv
      cases hv
    | some r =>
      simp [List.filterMap_cons, hr, ih fun e' he' => hvalid e' (List.mem_cons_of_mem _ he')]

theorem GoMap.filter_key_of_get {m : GoMap} {h g : String} (hm : (m.map Prod.fst).Nodup)
    (hg : m.get h = some g) : m.filter (fun r => decide (r.1 = h)) = [(h, g)] := by
  induction m with
  | nil => simp [GoMap.get] at hg
  | cons p m ih =>
    obtain ⟨k', v'⟩ := p
    rw [List.map_cons, List.nodup_cons] at hm
    by_cases h1 : k' = h
    · subst h1
      simp only [GoMap.get, if_true, Option.some.injEq] at hg
      subst hg
      have hnone : ∀ r ∈ m, ¬ r.1 = k' := by
        intro r hr e
        exact hm.1 (List.mem_map.2 ⟨r, hr, e⟩)
      have hnil : m.filter (fun r => decide (r.1 = k')) = [] :=
        List.filter_eq_nil_iff.2 fun r hr => by simpa using hnone r hr
      simp [List.filter_cons, hnil]
    · simp only [GoMap.get, h1, if_false] at hg
      simp [List.filter_cons, h1, ih hm.2 hg]

/-- C4: for a non-empty spec the forward table is the table the loop builds from only those
comma-separated entries whose colon count is 1 or 3; the loop body leaves the map as it is
on any other entry; and dropping such an entry from anywhere in the spec's entry list
leaves the table as it is, so the entries after it are still processed. -/
theorem invalid_entries_skipped (spec : String) (hne : spec ≠ "") :
    forwardTable spec
        = (loop { portFwdMap := [], printed := [] }
            ((strings.Split spec ',').filter fun e =>
              decide (strings.Count e ':' = 1 ∨ strings.Count e ':' = 3))).map
          (fun st => MapRef.present st.portFwdMap)
      ∧ (∀ (st : ParseState) (e : String),
          ¬ (strings.Count e ':' = 1 ∨ strings.Count e ':' = 3) →
          (loopBody st e).map ParseState.portFwdMap = some st.portFwdMap)
      ∧ (∀ (pre post : List String) (e : String),
          strings.Split spec ',' = pre ++ e :: post →
          ¬ (strings.Count e ':' = 1 ∨ strings.Count e ':' = 3) →
          forwardTable spec
            = (loop { portFwdMap := [], printed := [] } (pre ++ post)).map
                (fun st => MapRef.present st.portFwdMap)) := by
  have hfun : (fun e => decide (strings.Count e ':' = 1 ∨ strings.Count e ':' = 3))
      = validEntry := by
    funext e
    simp [validEntry]
  have hinv : ∀ e : String, ¬ (strings.Count e ':' = 1 ∨ strings.Count e ':' = 3) →
      validEntry e = false := by
    intro e he
    simpa [validEntry, not_or] using he
  refine ⟨?_, ?_, ?_⟩
  · rw [hfun, forwardTable_eq hne, loop_eq, filterMap_entryRule_filter]
    rfl
  · intro st e he
    rw [loopBody_of_invalid st (hinv e he)]
    rfl
  · intro pre post e hsplit he
    rw [forwardTable_eq hne, loop_eq, hsplit]
    simp [List.filterMap_append, (entryRule_eq_none_iff e).2 (hinv e he)]

theorem invalid_entries_skipped_witness :
    "bad,8080:80" ≠ ""
      ∧ forwardTable "bad,8080:80"
        = (loop { portFwdMap := [], printed := [] }
            ((strings.Split "bad,8080:80" ',').filter fun e =>
              decide (strings.Count e ':' = 1 ∨ strings.Count e ':' = 3))).map
          (fun st => MapRef.present st.portFwdMap)
      ∧ forwardTable "bad,8080:80"
        = some (MapRef.present [("127.0.0.1:8080", "172.16.10.2:80")]) :=
  ⟨by decide, (invalid_entries_skipped "bad,8080:80" (by decide)).1, by decide⟩

theorem exists_last_entry (h : String) (es : List String)
    (hprod : ∃ e ∈ es, ∃ g : String, entryRule e = some (h, g)) :
    ∃ (pre post : List String) (e g : String), es = pre ++ e :: post
      ∧ entryRule e = some (h, g)
      ∧ ∀ e' ∈ post, ∀ g' : String, entryRule e' ≠ some (h, g') := by
  induction es with
  | nil =>
    obtain ⟨e, he, _⟩ := hprod
    exact absurd he (List.not_mem_nil _)
  | cons x xs ih =>
    by_cases hxs : ∃ e ∈ xs, ∃ g : String, entryRule e = some (h, g)
    · obtain ⟨pre, post, e, g, h1, h2, h3⟩ := ih hxs
      exact ⟨x :: pre, post, e, g, by rw [h1]; rfl, h2, h3⟩
    · obtain ⟨e, he, g, hg⟩ := hprod
      rcases List.mem_cons.1 he with rfl | he'
      · exact ⟨[], xs, e, g, rfl, hg, fun e' he' g' hg' => hxs ⟨e', he', g', hg'⟩⟩
      · exact absurd ⟨e, he', g, hg⟩ hxs

/-- C5: in a non-empty spec, let `h` be a host address that some entry produces. Then the
table is present; there is a last entry that produces a rule for `h`; and whenever an entry
produces the rule `h -> g` and no entry after it produces a rule for `h`, the rules of the
table whose host address is `h` are exactly the one rule `h -> g`, `h` occurs once among
the keys, and looking `h` up gives `g`. -/
theorem last_entry_wins (spec : String) (hne : spec ≠ "") (h : String)
    (hprod : ∃ e ∈ strings.Split spec ',', ∃ g : String, entryRule e = some (h, g)) :
    ∃ m : GoMap, forwardTable spec = some (MapRef.present m)
      ∧ (∃ (pre post : List String) (e g : String),
          strings.Split spec ',' = pre ++ e :: post
          ∧ entryRule e = some (h, g)
          ∧ ∀ e' ∈ post, ∀ g' : String, entryRule e' ≠ some (h, g'))
      ∧ ∀ (pre post : List String) (e g : String),
          strings.Split spec ',' = pre ++ e :: post →
          entryRule e = some (h, g) →
          (∀ e' ∈ post, ∀ g' : String, entryRule e' ≠ some (h, g')) →
          m.filter (fun r => decide (r.1 = h)) = [(h, g)]
            ∧ (m.map Prod.fst).count h = 1
            ∧ (MapRef.present m).get h = some g := by
  refine ⟨_, forwardTable_eq hne, exists_last_entry h _ hprod, ?_⟩
  intro pre post e g hsplit he hlast
  have hnodup := nodup_keys_foldl ((strings.Split spec ',').filterMap entryRule) []
    List.nodup_nil
  have hget : GoMap.get (((strings.Split spec ',').filterMap entryRule).foldl applyRule []) h
      = some g := by
    rw [hsplit, List.filterMap_append, List.filterMap_cons, he, List.foldl_append,
      List.foldl_cons, get_foldl_of_not_mem]
    · exact GoMap.get_set_self _ h g
    · intro r hr hrh
      obtain ⟨e', he', hre⟩ := List.mem_filterMap.1 hr
      obtain ⟨h', g'⟩ := r
      simp only at hrh
      subst hrh
      exact hlast e' he' g' hre
  exact ⟨GoMap.filter_key_of_get hnodup hget,
    List.count_eq_one_of_mem hnodup (GoMap.mem_keys_of_get hget), hget⟩

theorem last_entry_wins_witness :
    ("8080:80,8080:81" ≠ ""
        ∧ ∃ e ∈ strings.Split "8080:80,8080:81" ',', ∃ g : String,
            entryRule e = some ("127.0.0.1:8080", g))
      ∧ ∃ m : GoMap, forwardTable "8080:80,8080:81" = some (MapRef.present m)
        ∧ m.filter (fun r => decide (r.1 = "127.0.0.1:8080"))
            = [("127.0.0.1:8080", "172.16.10.2:81")]
        ∧ (m.map Prod.fst).count "127.0.0.1:8080" = 1
        ∧ (MapRef.present m).get "127.0.0.1:8080" = some "172.16.10.2:81" := by
  have hprod : ∃ e ∈ strings.Split "8080:80,8080:81" ',', ∃ g : String,
      entryRule e = some ("127.0.0.1:8080", g) :=
    ⟨"8080:81", by decide, "172.16.10.2:81", by decide⟩
  obtain ⟨m, hm, _, hall⟩ :=
    last_entry_wins "8080:80,8080:81" (by decide) "127.0.0.1:8080" hprod
  exact ⟨⟨by decide, hprod⟩, m, hm,
    hall ["8080:80"] [] "8080:81" "172.16.10.2:81" (by decide) (by decide)
      (fun _ h => absurd h (List.not_mem_nil _))⟩

/-- C6: when every comma-separated entry of a spec has colon count 1 or 3 and the host
addresses the entries produce are pairwise distinct, the table is present, has as many
rules as the spec has entries, and every entry produces a rule whose host address the
table maps to that entry's guest address. -/
theorem one_rule_per_entry (spec : String)
    (hvalid : ∀ e ∈ strings.Split spec ',',
      strings.Count e ':' = 1 ∨ strings.Count e ':' = 3)
    (hdistinct : (((strings.Split spec ',').filterMap entryRule).map Prod.fst).Nodup) :
    ∃ m : GoMap, forwardTable spec = some (MapRef.present m)
      ∧ (MapRef.present m).len = (strings.Split spec ',').length
      ∧ ∀ e ∈ strings.Split spec ',', ∃ h g : String,
          entryRule e = some (h, g) ∧ (MapRef.present m).get h = some g := by
  have hvalid' : ∀ e ∈ strings.Split spec ',', validEntry e = true := by
    intro e he
    simpa [validEntry] using hvalid e he
  have hne : spec ≠ "" := by
    rintro rfl
    have := hvalid' "" (by decide)
    revert this
    decide
  have hm : ((strings.Split spec ',').filterMap entryRule).foldl applyRule []
      = (strings.Split spec ',').filterMap entryRule := by
    simpa using foldl_of_nodup ((strings.Split spec ',').filterMap entryRule) []
      (by simpa using hdistinct)
  have hmap := filterMap_entryRule_of_valid hvalid'
  refine ⟨_, forwardTable_eq hne, ?_, ?_⟩
  · rw [hm]
    have := congrArg List.length hmap
    simpa [MapRef.len] using this.symm
  · intro e he
    cases hr : entryRule e with
    | none =>
      have := hvalid' e he
      rw [(entryRule_eq_none_iff e).1 hr] at this
      cases this
    | some r =>
      obtain ⟨h, g⟩ := r
      refine ⟨h, g, rfl, ?_⟩
      rw [hm]
      exact GoMap.get_of_mem hdistinct (List.mem_filterMap.2 ⟨e, he, hr⟩)

theorem one_rule_per_entry_witness :
    ((∀ e ∈ strings.Split "2222:22,0.0.0.0:9090:172.16.10.9:9090" ',',
          strings.Count e ':' = 1 ∨ strings.Count e ':' = 3)
        ∧ (((strings.Split "2222:22,0.0.0.0:9090:172.16.10.9:9090" ',').filterMap
              entryRule).map Prod.fst).Nodup)
      ∧ (∃ m : GoMap,
          forwardTable "2222:22,0.0.0.0:9090:172.16.10.9:9090" = some (MapRef.present m)
          ∧ (MapRef.present m).len
              = (strings.Split "2222:22,0.0.0.0:9090:172.16.10.9:9090" ',').length
          ∧ ∀ e ∈ strings.Split "2222:22,0.0.0.0:9090:172.16.10.9:9090" ',',
              ∃ h g : String,
                entryRule e = some (h, g) ∧ (MapRef.present m).get h = some g)
      ∧ forwardTable "2222:22,0.0.0.0:9090:172.16.10.9:9090"
          = some (MapRef.present [("127.0.0.1:2222", "172.16.10.2:22"),
              ("0.0.0.0:9090", "172.16.10.9:9090")]) :=
  ⟨⟨by decide, by decide⟩,
    one_rule_per_entry "2222:22,0.0.0.0:9090:172.16.10.9:9090" (by decide) (by decide),
    by decide⟩

end usernet

/-! ## The configuration, the shape of the rules, and the reports -/

namespace usernet

/-- C7: for every spec, descriptor and surroundings, `StartUserNet` hands exactly one
configuration to engine creation, and it is the fixed defaults (Debug false, MTU 1500,
Subnet 172.16.10.0/24, GatewayIP 172.16.10.1, GatewayMacAddress 5a:94:ef:e4:0c:dd, nil
DHCPStaticLeases, empty DNS, nil DNSSearchDomains, the single NAT entry, the single gateway
virtual IP, the Bess protocol) with `Forwards` the table parsed from the spec, which is nil
for the empty spec. -/
theorem configuration_defaults (env : Env) (sockFD : Int) (spec : String) :
    ∃ t : MapRef, forwardTable spec = some t
      ∧ (spec = "" → t = MapRef.nil)
      ∧ (StartUserNet env sockFD spec).map configsCreated = some
          [{ Debug := false
             MTU := 1500
             Subnet := "172.16.10.0/24"
             GatewayIP := "172.16.10.1"
             GatewayMacAddress := "5a:94:ef:e4:0c:dd"
             DHCPStaticLeases := MapRef.nil
             Forwards := t
             DNS := some []
             DNSSearchDomains := none
             NAT := MapRef.present [("172.16.10.254", "127.0.0.1")]
             GatewayVirtualIPs := some ["172.16.10.254"]
             Protocol := Protocol.BessProtocol }] := by
  have hp := parsePortForwards_eq spec
  refine ⟨_, by rw [forwardTable, hp]; rfl, ?_, ?_⟩
  · rintro rfl
    rfl
  · rw [forwards_of_table hp env sockFD]
    rfl

theorem entryRule_shape {e : String} {r : String × String} (hr : entryRule e = some r) :
    (∃ a b : String, strings.Split e ':' = [a, b]
        ∧ r = ("127.0.0.1" ++ String.mk [':'] ++ a, "172.16.10.2" ++ String.mk [':'] ++ b))
      ∨ (∃ a b c d : String, strings.Split e ':' = [a, b, c, d]
        ∧ r = (a ++ String.mk [':'] ++ b, c ++ String.mk [':'] ++ d)) := by
  have hlen := strings.length_Split e ':'
  unfold entryRule at hr
  by_cases h1 : strings.Count e ':' = 1
  · rw [h1] at hlen
    rcases hS : strings.Split e ':' with _ | ⟨a, _ | ⟨b, _ | ⟨c, t⟩⟩⟩ <;>
      rw [hS] at hlen <;> simp at hlen
    simp only [h1, if_true, hS] at hr
    cases hr
    exact Or.inl ⟨a, b, rfl, rfl⟩
  · by_cases h3 : strings.Count e ':' = 3
    · rw [h3] at hlen
      rcases hS : strings.Split e ':' with
        _ | ⟨a, _ | ⟨b, _ | ⟨c, _ | ⟨d, _ | ⟨x, t⟩⟩⟩⟩⟩ <;>
        rw [hS] at hlen <;> simp at hlen
      simp only [h1, h3, if_true, if_false, hS] at hr
      cases hr
      exact Or.inr ⟨a, b, c, d, rfl, rfl⟩
    · simp [h1, h3] at hr

theorem hostPort_join {a b : String} (ha : ':' ∉ a.data) (hb : ':' ∉ b.data) :
    strings.Count (a ++ String.mk [':'] ++ b) ':' = 1
      ∧ strings.Split (a ++ String.mk [':'] ++ b) ':' = [a, b] := by
  refine ⟨?_, ?_⟩
  · rw [strings.Count_append, strings.Count_append, strings.Count_eq_zero ha,
      strings.Count_eq_zero hb]
    rfl
  · rw [strings.Split_append_sep b ha, strings.Split_of_not_mem hb]

theorem mem_table {spec : String} {m : GoMap} (hm : forwardTable spec = some (MapRef.present m))
    {r : String × String} (hr : r ∈ m) :
    ∃ e ∈ strings.Split spec ',', entryRule e = some r := by
  have hne : spec ≠ "" := by
    rintro rfl
    have h0 : forwardTable "" = some MapRef.nil := by decide
    rw [h0] at hm
    cases hm
  rw [forwardTable_eq hne] at hm
  cases hm
  rcases mem_foldl hr with h | h
  · exact absurd h (List.not_mem_nil _)
  · obtain ⟨e, he, hre⟩ := List.mem_filterMap.1 h
    exact ⟨e, he, hre⟩

/-- C8, refuted as stated: the spec `:` has colon count 1, so it yields the rule
`127.0.0.1:` -> `172.16.10.2:`, and both addresses have an empty port part. -/
theorem wellFormed_counterexample :
    ¬ ∀ (spec : String) (m : GoMap), forwardTable spec = some (MapRef.present m) →
        ∀ r ∈ m, wellFormedHostPort r.1 = true ∧ wellFormedHostPort r.2 = true := by
  intro hall
  have h := hall ":" [("127.0.0.1:", "172.16.10.2:")] (by decide) _ (List.mem_cons_self _ _)
  revert h
  decide

theorem wellFormed_join_iff {a b : String} (ha : ':' ∉ a.data) (hb : ':' ∉ b.data) :
    wellFormedHostPort (a ++ String.mk [':'] ++ b) = true ↔ a ≠ "" ∧ b ≠ "" := by
  obtain ⟨h1, h2⟩ := hostPort_join ha hb
  simp [wellFormedHostPort, h1, h2]

/-- C8, amended: in every rule of every table the parser produces, the host address and
the guest address each contain exactly one `:`. Some entry of the spec produces the rule,
and both addresses are well-formed `host:port` pairs when no `:`-separated field of that
entry is empty. For a 2-field entry `a:b` the parts of the host address are `127.0.0.1` and
`a`, those of the guest address `172.16.10.2` and `b`, so the host address is well-formed
exactly when `a` is not empty and the guest address exactly when `b` is not empty. For a
4-field entry `a:b:c:d` the parts are `a`, `b` and `c`, `d`, so the host address is
well-formed exactly when `a` and `b` are not empty and the guest address exactly when `c`
and `d` are not empty. -/
theorem rules_have_one_colon (spec : String) (m : GoMap)
    (hm : forwardTable spec = some (MapRef.present m)) (r : String × String) (hr : r ∈ m) :
    strings.Count r.1 ':' = 1 ∧ strings.Count r.2 ':' = 1
      ∧ ∃ e ∈ strings.Split spec ',',
          ((∀ f ∈ strings.Split e ':', f ≠ "") →
              wellFormedHostPort r.1 = true ∧ wellFormedHostPort r.2 = true)
          ∧ ((∃ a b : String, strings.Split e ':' = [a, b]
                ∧ r = ("127.0.0.1:" ++ a, "172.16.10.2:" ++ b)
                ∧ strings.Split r.1 ':' = ["127.0.0.1", a]
                ∧ strings.Split r.2 ':' = ["172.16.10.2", b]
                ∧ (wellFormedHostPort r.1 = true ↔ a ≠ "")
                ∧ (wellFormedHostPort r.2 = true ↔ b ≠ ""))
            ∨ (∃ a b c d : String, strings.Split e ':' = [a, b, c, d]
                ∧ r = (a ++ ":" ++ b, c ++ ":" ++ d)
                ∧ strings.Split r.1 ':' = [a, b]
                ∧ strings.Split r.2 ':' = [c, d]
                ∧ (wellFormedHostPort r.1 = true ↔ a ≠ "" ∧ b ≠ "")
                ∧ (wellFormedHostPort r.2 = true ↔ c ≠ "" ∧ d ≠ ""))) := by
  obtain ⟨e, he, hre⟩ := mem_table hm hr
  have hc : ∀ f ∈ strings.Split e ':', ':' ∉ f.data :=
    fun f hf => strings.not_mem_of_mem_Split hf
  have h0 : ':' ∉ ("127.0.0.1" : String).data := by decide
  have h1 : ':' ∉ ("172.16.10.2" : String).data := by decide
  rcases entryRule_shape hre with ⟨a, b, hS, rfl⟩ | ⟨a, b, c, d, hS, rfl⟩
  · rw [hS] at hc
    have ha := hc a (by simp)
    have hb := hc b (by simp)
    have wa := wellFormed_join_iff h0 ha
    have wb := wellFormed_join_iff h1 hb
    have wa' : wellFormedHostPort ("127.0.0.1" ++ String.mk [':'] ++ a) = true ↔ a ≠ "" :=
      wa.trans ⟨fun h => h.2, fun h => ⟨by decide, h⟩⟩
    have wb' : wellFormedHostPort ("172.16.10.2" ++ String.mk [':'] ++ b) = true ↔ b ≠ "" :=
      wb.trans ⟨fun h => h.2, fun h => ⟨by decide, h⟩⟩
    refine ⟨(hostPort_join h0 ha).1, (hostPort_join h1 hb).1, e, he, fun hf => ?_,
      Or.inl ⟨a, b, hS, rfl, (hostPort_join h0 ha).2, (hostPort_join h1 hb).2, wa', wb'⟩⟩
    rw [hS] at hf
    exact ⟨wa'.2 (hf a (by simp)), wb'.2 (hf b (by simp))⟩
  · rw [hS] at hc
    have ha := hc a (by simp)
    have hb := hc b (by simp)
    have hc' := hc c (by simp)
    have hd := hc d (by simp)
    have wab := wellFormed_join_iff ha hb
    have wcd := wellFormed_join_iff hc' hd
    refine ⟨(hostPort_join ha hb).1, (hostPort_join hc' hd).1, e, he, fun hf => ?_,
      Or.inr ⟨a, b, c, d, hS, rfl, (hostPort_join ha hb).2, (hostPort_join hc' hd).2,
        wab, wcd⟩⟩
    rw [hS] at hf
    exact ⟨wab.2 ⟨hf a (by simp), hf b (by simp)⟩, wcd.2 ⟨hf c (by simp), hf d (by simp)⟩⟩

theorem rules_have_one_colon_witness :
    (forwardTable "8080:80,9090:"
          = some (MapRef.present [("127.0.0.1:8080", "172.16.10.2:80"),
              ("127.0.0.1:9090", "172.16.10.2:")])
        ∧ ("127.0.0.1:8080", "172.16.10.2:80")
            ∈ [("127.0.0.1:8080", "172.16.10.2:80"), ("127.0.0.1:9090", "172.16.10.2:")])
      ∧ (strings.Count "127.0.0.1:8080" ':' = 1 ∧ strings.Count "172.16.10.2:80" ':' = 1
        ∧ ∃ e ∈ strings.Split "8080:80,9090:" ',',
            ((∀ f ∈ strings.Split e ':', f ≠ "") →
                wellFormedHostPort "127.0.0.1:8080" = true
                  ∧ wellFormedHostPort "172.16.10.2:80" = true)
            ∧ ((∃ a b : String, strings.Split e ':' = [a, b]
                  ∧ ("127.0.0.1:8080", "172.16.10.2:80")
                      = ("127.0.0.1:" ++ a, "172.16.10.2:" ++ b)
                  ∧ strings.Split "127.0.0.1:8080" ':' = ["127.0.0.1", a]
                  ∧ strings.Split "172.16.10.2:80" ':' = ["172.16.10.2", b]
                  ∧ (wellFormedHostPort "127.0.0.1:8080" = true ↔ a ≠ "")
                  ∧ (wellFormedHostPort "172.16.10.2:80" = true ↔ b ≠ ""))
              ∨ (∃ a b c d : String, strings.Split e ':' = [a, b, c, d]
                  ∧ ("127.0.0.1:8080", "172.16.10.2:80") = (a ++ ":" ++ b, c ++ ":" ++ d)
                  ∧ strings.Split "127.0.0.1:8080" ':' = [a, b]
                  ∧ strings.Split "172.16.10.2:80" ':' = [c, d]
                  ∧ (wellFormedHostPort "127.0.0.1:8080" = true ↔ a ≠ "" ∧ b ≠ "")
                  ∧ (wellFormedHostPort "172.16.10.2:80" = true ↔ c ≠ "" ∧ d ≠ ""))))
      ∧ wellFormedHostPort "127.0.0.1:8080" = true
      ∧ wellFormedHostPort "172.16.10.2:80" = true
      ∧ wellFormedHostPort "172.16.10.2:" = false :=
  ⟨⟨by decide, List.mem_cons_self _ _⟩,
    rules_have_one_colon "8080:80,9090:"
      [("127.0.0.1:8080", "172.16.10.2:80"), ("127.0.0.1:9090", "172.16.10.2:")]
      (by decide) ("127.0.0.1:8080", "172.16.10.2:80") (List.mem_cons_self _ _),
    by decide, by decide, by decide⟩

end usernet

/-! ## Reports and where they go -/

namespace usernet

theorem consoleOutput_append (l1 l2 : List Event) :
    consoleOutput (l1 ++ l2) = consoleOutput l1 ++ consoleOutput l2 := by
  induction l1 with
  | nil => rfl
  | cons x xs ih =>
    cases x with
    | printf sink text => cases sink <;> simp [consoleOutput, ih]
    | _ => simp [consoleOutput, ih]

theorem consoleOutput_printed (sink : Sink) (l : List String) :
    consoleOutput (l.map (Event.printf sink)) = if sink = Sink.console then l else [] := by
  induction l with
  | nil => cases sink <;> rfl
  | cons x xs ih => cases sink <;> simp_all [consoleOutput]

theorem consoleOutput_reportErr (env : Env) {null : Sink} (hnull : null ≠ Sink.console)
    (err : Option String) : consoleOutput (reportErr env null err) = [] := by
  cases err with
  | none => rfl
  | some msg => cases null <;> simp_all [reportErr, consoleOutput]

theorem consoleOutput_attach (env : Env) {null : Sink} (hnull : null ≠ Sink.console)
    (errNew : Option String) (sockFD : Int) :
    consoleOutput (attach env null errNew sockFD) = [] := by
  by_cases h : sockFD < 0
  · rw [attach_of_neg env null errNew h]
    rfl
  · rw [attach_of_nonneg env null errNew h, consoleOutput_append, consoleOutput_append,
      consoleOutput_reportErr env hnull]
    rfl

theorem StartUserNet_consoleOutput (env : Env) (sockFD : Int) (spec : String) :
    (StartUserNet env sockFD spec).map consoleOutput
      = (reports spec).map fun rs => if env.stdout = Sink.console then rs else [] := by
  have hnull : (if env.openDevNull then Sink.devNull else Sink.nilFile) ≠ Sink.console := by
    cases env.openDevNull <;> simp
  obtain ⟨⟨t, rs⟩, hq⟩ : ∃ q, parsePortForwards spec = some q :=
    ⟨_, parsePortForwards_eq spec⟩
  rw [StartUserNet_eq env sockFD hq, reports, hq, Option.map_some', Option.map_some',
    consoleOutput_append, consoleOutput_printed]
  simp [consoleOutput, consoleOutput_append, consoleOutput_reportErr env hnull,
    consoleOutput_attach env hnull]

/-- C9: the reports of a spec are, for the empty spec, none at all, and otherwise one text
`err: invalid port forward entry: ` followed by the entry, for each comma-separated entry
whose colon count is neither 1 nor 3, in entry order, and nothing for the other entries;
`StartUserNet` prints exactly these, first of all its effects, to what `os.Stdout` is on
entry. -/
theorem reports_per_invalid_entry (spec : String) :
    reports spec = some
        (if spec = "" then []
         else ((strings.Split spec ',').filter fun e =>
                decide (strings.Count e ':' ≠ 1 ∧ strings.Count e ':' ≠ 3)).map
              fun e => "err: invalid port forward entry: " ++ e)
      ∧ ∀ (env : Env) (sockFD : Int), ∃ (rs : List String) (null : Sink) (rest : List Event),
          reports spec = some rs
          ∧ StartUserNet env sockFD spec
              = some (rs.map (Event.printf env.stdout) ++ Event.setStdout null :: rest) := by
  have hfun : (fun e => decide (strings.Count e ':' ≠ 1 ∧ strings.Count e ':' ≠ 3))
      = fun e => !validEntry e := by
    funext e
    by_cases h1 : strings.Count e ':' = 1 <;> by_cases h3 : strings.Count e ':' = 3 <;>
      simp [validEntry, h1, h3]
  have hp := parsePortForwards_eq spec
  refine ⟨?_, fun env sockFD => ?_⟩
  · rw [reports, hp, hfun]
    by_cases h : spec = ""
    · simp [h]
    · simp only [h, if_false, ne_eq, not_false_eq_true, if_true, Option.map_some']
      rfl
  · obtain ⟨⟨t, rs⟩, hq⟩ : ∃ q, parsePortForwards spec = some q := ⟨_, hp⟩
    exact ⟨rs, _, _, by rw [reports, hq]; rfl, StartUserNet_eq env sockFD hq⟩

/-- C10, evaluated where it fails: with the spec `bad` and the descriptor 999 that is no
open socket, engine creation succeeds and `net.FileConn` returns an error; its `err: ...`
text is printed after `os.Stdout` was set to the null device, so the only text that reaches
the standard output of the process is the malformed-entry report. For every call, whichever
of engine creation and descriptor wrapping fail, what reaches that output is the
malformed-entry reports and nothing else. -/
theorem setup_errors_go_to_null :
    StartUserNet closedDescriptorEnv 999 "bad" = some
        [ Event.printf Sink.console "err: invalid port forward entry: bad",
          Event.setStdout Sink.devNull,
          Event.setStderr Sink.devNull,
          Event.logrusSetOutputDiscard,
          Event.logSetOutputDiscard,
          Event.virtualnetworkNew (mkConfig (MapRef.present [])),
          Event.fileConn 999,
          Event.printf Sink.devNull
            ("err: " ++ dq ++ "file file+net server: bad file descriptor" ++ dq ++ "\n"),
          Event.goAcceptBess true false,
          Event.goWait ]
      ∧ (StartUserNet closedDescriptorEnv 999 "bad").map consoleOutput
          = some ["err: invalid port forward entry: bad"]
      ∧ ∀ (env : Env) (sockFD : Int) (spec : String),
          (StartUserNet env sockFD spec).map consoleOutput
            = (reports spec).map fun rs => if env.stdout = Sink.console then rs else [] := by
  refine ⟨by decide, by decide, StartUserNet_consoleOutput⟩

end usernet

/-! ## Setup failures and independence of the surroundings -/

namespace usernet

theorem steps_printed (sink : Sink) (l : List String) :
    steps (l.map (Event.printf sink)) = [] := by
  induction l with
  | nil => rfl
  | cons x xs ih => simp [steps, Event.isPrintf]

theorem steps_append (l1 l2 : List Event) : steps (l1 ++ l2) = steps l1 ++ steps l2 := by
  simp [steps]

theorem steps_reportErr (env : Env) (sink : Sink) (err : Option String) :
    steps (reportErr env sink err) = [] := by
  cases err <;> rfl

theorem textsBeforeSwap_printed (sink : Sink) (l : List String) (null : Sink)
    (rest : List Event) :
    textsBeforeSwap (l.map (Event.printf sink) ++ Event.setStdout null :: rest) = l := by
  induction l with
  | nil => rfl
  | cons x xs ih => simp [textsBeforeSwap, ih]

theorem steps_attach (env : Env) (null : Sink) (errNew : Option String) (sockFD : Int) :
    steps (attach env null errNew sockFD)
      = Event.fileConn sockFD ::
          (if sockFD < 0 then [Event.panic]
           else [Event.goAcceptBess errNew.isNone (env.fileConn sockFD).isNone,
                 Event.goWait]) := by
  by_cases h : sockFD < 0
  · rw [attach_of_neg env null errNew h, if_pos h]
    rfl
  · rw [attach_of_nonneg env null errNew h, if_neg h, steps_append, steps_append,
      steps_reportErr]
    rfl

/-- C11, evaluated where it fails: with the descriptor -1 the file of line 78 is nil and
`net.FileConn` panics at line 79, so `StartUserNet` stops there and launches no task. For
every call, the effects other than printing are the output swaps, engine creation and
descriptor wrapping, followed for a negative descriptor by the panic and nothing else, and
for any other descriptor, in each of the four combinations of success and failure of
`virtualnetwork.New` and `net.FileConn`, by the launch of the task that calls `AcceptBess`
and the launch of the waiting task. -/
theorem negative_descriptor_panics :
    StartUserNet closedDescriptorEnv (-1) "2222:22" = some
        [ Event.setStdout Sink.devNull,
          Event.setStderr Sink.devNull,
          Event.logrusSetOutputDiscard,
          Event.logSetOutputDiscard,
          Event.virtualnetworkNew
            (mkConfig (MapRef.present [("127.0.0.1:2222", "172.16.10.2:22")])),
          Event.fileConn (-1),
          Event.panic ]
      ∧ (StartUserNet closedDescriptorEnv (-1) "2222:22").map launchesBridge = some false
      ∧ ∀ (env : Env) (sockFD : Int) (spec : String),
          ∃ (t : MapRef) (null : Sink), forwardTable spec = some t
            ∧ (StartUserNet env sockFD spec).map steps = some
                ([ Event.setStdout null,
                   Event.setStderr null,
                   Event.logrusSetOutputDiscard,
                   Event.logSetOutputDiscard,
                   Event.virtualnetworkNew (mkConfig t),
                   Event.fileConn sockFD ]
                  ++ if sockFD < 0 then [Event.panic]
                     else [Event.goAcceptBess (env.virtualnetworkNew (mkConfig t)).isNone
                             (env.fileConn sockFD).isNone,
                           Event.goWait]) := by
  refine ⟨by decide, by decide, fun env sockFD spec => ?_⟩
  obtain ⟨⟨t, rs⟩, hq⟩ : ∃ q, parsePortForwards spec = some q :=
    ⟨_, parsePortForwards_eq spec⟩
  refine ⟨t, if env.openDevNull then Sink.devNull else Sink.nilFile,
    by rw [forwardTable, hq]; rfl, ?_⟩
  rw [StartUserNet_eq env sockFD hq, Option.map_some', steps_append, steps_printed,
    List.nil_append, ← List.singleton_append, steps_append, steps_append, steps_append,
    steps_reportErr, steps_attach]
  rfl

end usernet

namespace usernet

/-- C12: a spec alone fixes one table and one sequence of malformed-entry reports: parsing
always returns them, and every call of `StartUserNet` on that spec, whatever the descriptor
and the surroundings (also a later call that finds `os.Stdout` already swapped), hands
that table to engine creation and prints that sequence before the swap; so two calls on
the same spec agree on both. -/
theorem parsing_depends_only_on_spec (spec : String) :
    (∃ (t : MapRef) (rs : List String), parsePortForwards spec = some (t, rs)
        ∧ ∀ (env : Env) (sockFD : Int),
            (StartUserNet env sockFD spec).map
                (fun evs => (configsCreated evs).map Configuration.Forwards) = some [t]
            ∧ (StartUserNet env sockFD spec).map textsBeforeSwap = some rs)
      ∧ ∀ (env1 env2 : Env) (fd1 fd2 : Int),
          (StartUserNet env1 fd1 spec).map
                (fun evs => (configsCreated evs).map Configuration.Forwards)
              = (StartUserNet env2 fd2 spec).map
                (fun evs => (configsCreated evs).map Configuration.Forwards)
            ∧ (StartUserNet env1 fd1 spec).map textsBeforeSwap
              = (StartUserNet env2 fd2 spec).map textsBeforeSwap := by
  obtain ⟨⟨t, rs⟩, hq⟩ : ∃ q, parsePortForwards spec = some q :=
    ⟨_, parsePortForwards_eq spec⟩
  have hcall : ∀ (env : Env) (sockFD : Int),
      (StartUserNet env sockFD spec).map
          (fun evs => (configsCreated evs).map Configuration.Forwards) = some [t]
        ∧ (StartUserNet env sockFD spec).map textsBeforeSwap = some rs := by
    intro env sockFD
    refine ⟨?_, ?_⟩
    · have := forwards_of_table hq env sockFD
      rw [Option.map_eq_some'] at this ⊢
      obtain ⟨evs, h1, h2⟩ := this
      exact ⟨evs, h1, by rw [h2]; rfl⟩
    · rw [StartUserNet_eq env sockFD hq, Option.map_some', textsBeforeSwap_printed]
  refine ⟨⟨t, rs, hq, hcall⟩, fun env1 env2 fd1 fd2 => ?_⟩
  rw [(hcall env1 fd1).1, (hcall env1 fd1).2, (hcall env2 fd2).1, (hcall env2 fd2).2]
  exact ⟨rfl, rfl⟩

/-- C14: the forward table is the nil map exactly when the spec is the empty string; for a
non-empty spec the table is present, and when no comma-separated entry has colon count 1
or 3 it is the present table with no rule. -/
theorem nil_iff_empty_spec (spec : String) :
    (forwardTable spec = some MapRef.nil ↔ spec = "")
      ∧ (spec ≠ "" → ∃ m : GoMap, forwardTable spec = some (MapRef.present m)
          ∧ ((∀ e ∈ strings.Split spec ',',
                ¬ (strings.Count e ':' = 1 ∨ strings.Count e ':' = 3)) →
              m = [] ∧ (MapRef.present m).len = 0)) := by
  refine ⟨⟨fun h => ?_, fun h => ?_⟩, fun hne => ⟨_, forwardTable_eq hne, fun hall => ?_⟩⟩
  · by_contra hne
    rw [forwardTable_eq hne] at h
    cases h
  · subst h
    decide
  · have hnone : (strings.Split spec ',').filterMap entryRule = [] := by
      rw [List.filterMap_eq_nil_iff]
      intro e he
      rw [entryRule_eq_none_iff]
      simpa [validEntry, not_or] using hall e he
    rw [hnone]
    exact ⟨rfl, rfl⟩

theorem nil_iff_empty_spec_witness :
    ("bad" ≠ "" ∧ "," ≠ ""
        ∧ (∀ e ∈ strings.Split "bad" ',',
            ¬ (strings.Count e ':' = 1 ∨ strings.Count e ':' = 3))
        ∧ (∀ e ∈ strings.Split "," ',',
            ¬ (strings.Count e ':' = 1 ∨ strings.Count e ':' = 3)))
      ∧ forwardTable "bad" = some (MapRef.present [])
      ∧ forwardTable "," = some (MapRef.present [])
      ∧ (forwardTable "" = some MapRef.nil ↔ "" = "") := by
  have hbad : ∀ e ∈ strings.Split "bad" ',',
      ¬ (strings.Count e ':' = 1 ∨ strings.Count e ':' = 3) := by decide
  have hcomma : ∀ e ∈ strings.Split "," ',',
      ¬ (strings.Count e ':' = 1 ∨ strings.Count e ':' = 3) := by decide
  obtain ⟨m1, hm1, h1⟩ := (nil_iff_empty_spec "bad").2 (by decide)
  obtain ⟨m2, hm2, h2⟩ := (nil_iff_empty_spec ",").2 (by decide)
  rw [(h1 hbad).1] at hm1
  rw [(h2 hcomma).1] at hm2
  exact ⟨⟨by decide, by decide, hbad, hcomma⟩, hm1, hm2, (nil_iff_empty_spec "").1⟩

end usernet

/-! ## Concatenation of specs and the two entry forms -/

namespace strings

theorem splitChars_append_cons (sep : Char) (a b : List Char) :
    splitChars sep (a ++ sep :: b) = splitChars sep a ++ splitChars sep b := by
  induction a with
  | nil => simp [splitChars]
  | cons c cs ih =>
    by_cases hc : c = sep
    · simp [splitChars, hc, ih]
    · obtain ⟨w, ws, h1, h2⟩ := splitChars_cons_ne cs hc
      rw [h2, List.cons_append, splitChars, if_neg hc, ih, h1]
      rfl

theorem Split_append (a b : String) (sep : Char) :
    Split (a ++ String.mk [sep] ++ b) sep = Split a sep ++ Split b sep := by
  simp [Split, String.data_append, splitChars_append_cons]

end strings

namespace usernet

theorem GoMap.mem_of_get {m : GoMap} {h g : String} (hg : m.get h = some g) : (h, g) ∈ m := by
  induction m with
  | nil => simp [GoMap.get] at hg
  | cons p m ih =>
    obtain ⟨k', v'⟩ := p
    by_cases h1 : k' = h
    · subst h1
      simp only [GoMap.get, if_true, Option.some.injEq] at hg
      subst hg
      exact List.mem_cons_self _ _
    · simp only [GoMap.get, h1, if_false] at hg
      exact List.mem_cons_of_mem _ (ih hg)

theorem GoMap.not_mem_keys_of_get {m : GoMap} {h : String} (hg : m.get h = none) :
    h ∉ m.map Prod.fst := by
  induction m with
  | nil => simp
  | cons p m ih =>
    obtain ⟨k', v'⟩ := p
    by_cases h1 : k' = h
    · simp [GoMap.get, h1] at hg
    · simp only [GoMap.get, h1, if_false] at hg
      intro hmem
      rcases List.mem_cons.1 hmem with e | e
      · exact h1 e.symm
      · exact ih hg e

theorem get_foldl_override (rs : List (String × String)) (m : GoMap) (k : String) :
    (rs.foldl applyRule m).get k = overrideGet m (rs.foldl applyRule []) k := by
  induction rs generalizing m with
  | nil => simp [overrideGet, GoMap.get]
  | cons r rs ih =>
    rw [List.foldl_cons, List.foldl_cons, ih (applyRule m r)]
    unfold overrideGet
    rw [ih (applyRule [] r)]
    unfold overrideGet
    cases hX : (rs.foldl applyRule []).get k with
    | some v => rfl
    | none =>
      simp only
      by_cases hr : r.1 = k
      · subst hr
        simp [applyRule, GoMap.get_set_self]
      · simp [applyRule, GoMap.get_set_ne _ _ hr, GoMap.set, GoMap.get, hr]

theorem mem_override {m1 m2 m12 : GoMap} (h1 : (m1.map Prod.fst).Nodup)
    (h2 : (m2.map Prod.fst).Nodup) (h12 : (m12.map Prod.fst).Nodup)
    (hget : ∀ k : String, m12.get k = overrideGet m1 m2 k) (r : String × String) :
    r ∈ m12 ↔ (r ∈ m2 ∨ (r ∈ m1 ∧ r.1 ∉ m2.map Prod.fst)) := by
  obtain ⟨k, v⟩ := r
  have hiff : ∀ {m : GoMap}, (m.map Prod.fst).Nodup → ((k, v) ∈ m ↔ m.get k = some v) :=
    fun hm => ⟨GoMap.get_of_mem hm, GoMap.mem_of_get⟩
  rw [hiff h12, hget k, hiff h2, hiff h1]
  unfold overrideGet
  cases hX : m2.get k with
  | some v' =>
    have hk : k ∈ m2.map Prod.fst := GoMap.mem_keys_of_get hX
    simp [hk]
  | none =>
    have hk : k ∉ m2.map Prod.fst := GoMap.not_mem_keys_of_get hX
    simp [hk]

theorem reports_eq {spec : String} (hne : spec ≠ "") :
    reports spec = some
      (((strings.Split spec ',').filter fun e => !validEntry e).map invalidEntryText) := by
  rw [reports, parsePortForwards_eq, if_pos hne]
  rfl

end usernet

namespace usernet

theorem append_comma_ne (a b : String) : a ++ "," ++ b ≠ "" := by
  intro e
  have := congrArg String.length e
  simp at this
  exact absurd this.1.2 (by decide)

/-- C15: for non-empty specs `s1` and `s2`, the three tables are present; looking a host
address up in the table of `s1,s2` gives its value in the table of `s2` if that table has
it and else its value in the table of `s1`; the rules of the table of `s1,s2` are exactly
the rules of `s2` together with the rules of `s1` whose host address is no key of the table
of `s2`; and the reports of `s1,s2` are the reports of `s1` followed by those of `s2`. -/
theorem parse_distributes_over_comma (s1 s2 : String) (h1 : s1 ≠ "") (h2 : s2 ≠ "") :
    ∃ m1 m2 m12 : GoMap,
      forwardTable s1 = some (MapRef.present m1)
      ∧ forwardTable s2 = some (MapRef.present m2)
      ∧ forwardTable (s1 ++ "," ++ s2) = some (MapRef.present m12)
      ∧ (∀ k : String, (MapRef.present m12).get k = overrideGet m1 m2 k)
      ∧ (∀ r : String × String,
          r ∈ m12 ↔ (r ∈ m2 ∨ (r ∈ m1 ∧ r.1 ∉ m2.map Prod.fst)))
      ∧ ∃ r1 r2 : List String, reports s1 = some r1 ∧ reports s2 = some r2
          ∧ reports (s1 ++ "," ++ s2) = some (r1 ++ r2) := by
  have h12 := append_comma_ne s1 s2
  have hsplit : strings.Split (s1 ++ "," ++ s2) ','
      = strings.Split s1 ',' ++ strings.Split s2 ',' := strings.Split_append s1 s2 ','
  have hget : ∀ k : String,
      GoMap.get (((strings.Split (s1 ++ "," ++ s2) ',').filterMap entryRule).foldl
          applyRule []) k
        = overrideGet (((strings.Split s1 ',').filterMap entryRule).foldl applyRule [])
            (((strings.Split s2 ',').filterMap entryRule).foldl applyRule []) k := by
    intro k
    rw [hsplit, List.filterMap_append, List.foldl_append, get_foldl_override]
  refine ⟨_, _, _, forwardTable_eq h1, forwardTable_eq h2, forwardTable_eq h12, hget,
    mem_override (nodup_keys_foldl _ [] List.nodup_nil) (nodup_keys_foldl _ [] List.nodup_nil)
      (nodup_keys_foldl _ [] List.nodup_nil) hget,
    _, _, reports_eq h1, reports_eq h2, ?_⟩
  rw [reports_eq h12, hsplit, List.filter_append, List.map_append]

theorem parse_distributes_over_comma_witness :
    ("bad,8080:80" ≠ "" ∧ "x,8080:81,9090:90" ≠ "")
      ∧ ∃ m1 m2 m12 : GoMap,
        forwardTable "bad,8080:80" = some (MapRef.present m1)
        ∧ forwardTable "x,8080:81,9090:90" = some (MapRef.present m2)
        ∧ forwardTable ("bad,8080:80" ++ "," ++ "x,8080:81,9090:90")
            = some (MapRef.present m12)
        ∧ (∀ k : String, (MapRef.present m12).get k = overrideGet m1 m2 k)
        ∧ (∀ r : String × String,
            r ∈ m12 ↔ (r ∈ m2 ∨ (r ∈ m1 ∧ r.1 ∉ m2.map Prod.fst)))
        ∧ ∃ r1 r2 : List String, reports "bad,8080:80" = some r1
            ∧ reports "x,8080:81,9090:90" = some r2
            ∧ reports ("bad,8080:80" ++ "," ++ "x,8080:81,9090:90") = some (r1 ++ r2) :=
  ⟨by decide,
    parse_distributes_over_comma "bad,8080:80" "x,8080:81,9090:90" (by decide) (by decide)⟩

end usernet

namespace usernet

theorem entryRule_four_field_default {h g : String} (hh : ':' ∉ h.data) (hg : ':' ∉ g.data) :
    entryRule ("127.0.0.1:" ++ h ++ ":172.16.10.2:" ++ g)
      = some ("127.0.0.1:" ++ h, "172.16.10.2:" ++ g) := by
  have e : "127.0.0.1:" ++ h ++ ":172.16.10.2:" ++ g
      = "127.0.0.1" ++ ":" ++ h ++ ":" ++ "172.16.10.2" ++ ":" ++ g := by
    apply String.ext
    simp [String.data_append]
  rw [e, entryRule_four_field (by decide) hh (by decide) hg]
  rfl

theorem forwardTable_congr {spec1 spec2 : String} {pre post : List String} {e1 e2 : String}
    (he1 : e1 ≠ "") (he2 : e2 ≠ "") (hrule : entryRule e1 = entryRule e2)
    (hs1 : strings.Split spec1 ',' = pre ++ e1 :: post)
    (hs2 : strings.Split spec2 ',' = pre ++ e2 :: post) :
    forwardTable spec1 = forwardTable spec2 := by
  have hne : ∀ {spec e : String}, e ≠ "" → strings.Split spec ',' = pre ++ e :: post →
      spec ≠ "" := by
    intro spec e he hs hspec
    subst hspec
    have hmem : e ∈ strings.Split "" ',' := by
      rw [hs]
      simp
    have : e = "" := by
      revert hmem
      have h0 : strings.Split "" ',' = [""] := by decide
      rw [h0]
      simp
    exact he this
  rw [forwardTable_eq (hne he1 hs1), forwardTable_eq (hne he2 hs2), hs1, hs2]
  simp [List.filterMap_append, List.filterMap_cons, hrule]

/-- C16: for `h` and `g` free of `,` and `:`, the spec `h:g` and the spec
`127.0.0.1:h:172.16.10.2:g` yield the same forward table, the present table with the one
rule `127.0.0.1:h -> 172.16.10.2:g`; and two specs whose comma-separated entries differ
only in that one has `h:g` where the other has `127.0.0.1:h:172.16.10.2:g` yield the same
table, in particular when the entry stands between, after or before further text. -/
theorem two_field_is_shorthand (h g : String)
    (hh1 : ',' ∉ h.data) (hh2 : ':' ∉ h.data) (hg1 : ',' ∉ g.data) (hg2 : ':' ∉ g.data) :
    forwardTable (h ++ ":" ++ g) = forwardTable ("127.0.0.1:" ++ h ++ ":172.16.10.2:" ++ g)
      ∧ forwardTable (h ++ ":" ++ g)
          = some (MapRef.present [("127.0.0.1:" ++ h, "172.16.10.2:" ++ g)])
      ∧ (∀ (spec1 spec2 : String) (pre post : List String),
          strings.Split spec1 ',' = pre ++ (h ++ ":" ++ g) :: post →
          strings.Split spec2 ','
            = pre ++ ("127.0.0.1:" ++ h ++ ":172.16.10.2:" ++ g) :: post →
          forwardTable spec1 = forwardTable spec2)
      ∧ (∀ p q : String,
          forwardTable (p ++ "," ++ (h ++ ":" ++ g) ++ "," ++ q)
            = forwardTable (p ++ "," ++ ("127.0.0.1:" ++ h ++ ":172.16.10.2:" ++ g)
                ++ "," ++ q))
      ∧ (∀ p : String,
          forwardTable (p ++ "," ++ (h ++ ":" ++ g))
            = forwardTable (p ++ "," ++ ("127.0.0.1:" ++ h ++ ":172.16.10.2:" ++ g)))
      ∧ (∀ q : String,
          forwardTable (h ++ ":" ++ g ++ "," ++ q)
            = forwardTable ("127.0.0.1:" ++ h ++ ":172.16.10.2:" ++ g ++ "," ++ q)) := by
  have hne2 : h ++ ":" ++ g ≠ "" := by
    intro e
    have := congrArg String.length e
    simp at this
    exact absurd this.1.2 (by decide)
  have hne4 : "127.0.0.1:" ++ h ++ ":172.16.10.2:" ++ g ≠ "" := by
    intro e
    have := congrArg String.length e
    simp at this
    exact absurd this.1.1.1 (by decide)
  have hc2 : ',' ∉ (h ++ ":" ++ g).data := by
    simp only [String.data_append, List.mem_append, not_or]
    exact ⟨⟨hh1, by decide⟩, hg1⟩
  have hc4 : ',' ∉ ("127.0.0.1:" ++ h ++ ":172.16.10.2:" ++ g).data := by
    simp only [String.data_append, List.mem_append, not_or]
    exact ⟨⟨⟨by decide, hh1⟩, by decide⟩, hg1⟩
  have hr2 := entryRule_two_field hh2 hg2
  have hr4 := entryRule_four_field_default hh2 hg2
  have hrule : entryRule (h ++ ":" ++ g)
      = entryRule ("127.0.0.1:" ++ h ++ ":172.16.10.2:" ++ g) := by rw [hr2, hr4]
  have hgen : ∀ (spec1 spec2 : String) (pre post : List String),
      strings.Split spec1 ',' = pre ++ (h ++ ":" ++ g) :: post →
      strings.Split spec2 ','
        = pre ++ ("127.0.0.1:" ++ h ++ ":172.16.10.2:" ++ g) :: post →
      forwardTable spec1 = forwardTable spec2 :=
    fun spec1 spec2 pre post hs1 hs2 => forwardTable_congr hne2 hne4 hrule hs1 hs2
  have hS2 := strings.Split_of_not_mem hc2
  have hS4 := strings.Split_of_not_mem hc4
  have ht2 : forwardTable (h ++ ":" ++ g)
      = some (MapRef.present [("127.0.0.1:" ++ h, "172.16.10.2:" ++ g)]) := by
    rw [forwardTable, parsePortForwards_single hne2 hc2 hr2]
    rfl
  have ht4 : forwardTable ("127.0.0.1:" ++ h ++ ":172.16.10.2:" ++ g)
      = some (MapRef.present [("127.0.0.1:" ++ h, "172.16.10.2:" ++ g)]) := by
    rw [forwardTable, parsePortForwards_single hne4 hc4 hr4]
    rfl
  refine ⟨by rw [ht2, ht4], ht2, hgen, fun p q => ?_, fun p => ?_, fun q => ?_⟩
  · refine hgen _ _ (strings.Split p ',') (strings.Split q ',') ?_ ?_
    · rw [show ("," : String) = String.mk [','] from rfl, strings.Split_append,
        strings.Split_append, hS2]
      simp
    · rw [show ("," : String) = String.mk [','] from rfl, strings.Split_append,
        strings.Split_append, hS4]
      simp
  · refine hgen _ _ (strings.Split p ',') [] ?_ ?_
    · rw [show ("," : String) = String.mk [','] from rfl, strings.Split_append, hS2]
    · rw [show ("," : String) = String.mk [','] from rfl, strings.Split_append, hS4]
  · refine hgen _ _ [] (strings.Split q ',') ?_ ?_
    · rw [show ("," : String) = String.mk [','] from rfl, strings.Split_append, hS2]
      rfl
    · rw [show ("," : String) = String.mk [','] from rfl, strings.Split_append, hS4]
      rfl

theorem two_field_is_shorthand_witness :
    (',' ∉ "8080".data ∧ ':' ∉ "8080".data ∧ ',' ∉ "80".data ∧ ':' ∉ "80".data)
      ∧ forwardTable ("8080" ++ ":" ++ "80")
          = forwardTable ("127.0.0.1:" ++ "8080" ++ ":172.16.10.2:" ++ "80")
      ∧ forwardTable ("9:9" ++ "," ++ ("8080" ++ ":" ++ "80") ++ "," ++ "bad")
          = forwardTable ("9:9" ++ "," ++ ("127.0.0.1:" ++ "8080" ++ ":172.16.10.2:" ++ "80")
              ++ "," ++ "bad") := by
  have h := two_field_is_shorthand "8080" "80" (by decide) (by decide) (by decide)
    (by decide)
  exact ⟨by decide, h.1, h.2.2.2.1 "9:9" "bad"⟩

end usernet
